import Mathlib

/-!
Verification of the instantaneous rate matrix construction engine
(`matrix_builder.py`) of the pyvolve repository, together with the
frequency back-derivation from `state_freqs.py` that the MG94 codon
style consumes.  Floating-point numbers are modelled as rationals;
dictionaries of mutation rates become total functions on ordered
nucleotide pairs; fallible validation returns `Except`.
-/

/-- Tolerance constant `ZERO = 1e-8` from the source module. -/
def ZERO : ℚ := 1 / 100000000

/-- The four nucleotides, in alphabetical order A < C < G < T. -/
inductive Nucl where
  | A | C | G | T
deriving DecidableEq, Repr

/-- Alphabetical rank of a nucleotide letter, mirroring Python string order. -/
def nucRank : Nucl → ℕ
  | .A => 0 | .C => 1 | .G => 2 | .T => 3

/-- `"".join(sorted(a + b))`: the two nucleotides in alphabetical order. -/
def sortedPair (a b : Nucl) : Nucl × Nucl :=
  if nucRank a ≤ nucRank b then (a, b) else (b, a)

/-- Membership in `MOLECULES.pyrims` (pyrimidines C, T). -/
def isPyrim : Nucl → Bool
  | .C => true | .T => true | _ => false

/-- Membership in `MOLECULES.purines` (purines A, G). -/
def isPurine : Nucl → Bool
  | .A => true | .G => true | _ => false

/-- `MatrixBuilder._is_TI`: a change is a transition iff both nucleotides are
pyrimidines or both are purines. -/
def is_TI (a b : Nucl) : Bool :=
  (isPyrim a && isPyrim b) || (isPurine a && isPurine b)

/-- The `mu` value of a parameter dictionary before validation: a single
float, a (possibly partial) dictionary of ordered-pair rates, or absent. -/
inductive MuArg where
  | flt (x : ℚ)
  | dct (m : Nucl → Nucl → Option ℚ)
  | absent

/-- The dictionary-filling step of `MatrixBuilder._sanity_params_mutation_rates`:
a missing direction is copied from its reverse pair, and 1.0 is used when
neither direction is present. -/
def fillMuDict (m : Nucl → Nucl → Option ℚ) : Nucl → Nucl → ℚ :=
  fun a b => (m a b).getD ((m b a).getD 1)

/-- The pre-kappa part of `MatrixBuilder._sanity_params_mutation_rates`:
a float is applied uniformly to all ordered pairs, a dictionary is filled
symmetrically, and an absent `mu` gives all rates 1.0. -/
def sanityMuBase : MuArg → Nucl → Nucl → ℚ
  | .flt x => fun _ _ => x
  | .dct m => fillMuDict m
  | .absent => fun _ _ => 1

/-- The kappa step of `MatrixBuilder._sanity_params_mutation_rates`: the four
transition entries AG, GA, CT, TC are multiplied by kappa, all other entries
are taken over unchanged. -/
def applyKappa (k : ℚ) (mu : Nucl → Nucl → ℚ) : Nucl → Nucl → ℚ :=
  fun a b =>
    match a, b with
    | .A, .G => mu .A .G * k
    | .G, .A => mu .G .A * k
    | .C, .T => mu .C .T * k
    | .T, .C => mu .T .C * k
    | x, y => mu x y

/-- `MatrixBuilder._sanity_params_mutation_rates`, as a function from the raw
`mu` entry and the optional `kappa` entry to the final full rate mapping. -/
def sanity_params_mutation_rates (mu : MuArg) (kappa : Option ℚ) :
    Nucl → Nucl → ℚ :=
  match kappa with
  | none => sanityMuBase mu
  | some k => applyKappa k (sanityMuBase mu)

/-- A caller-supplied parameter bundle as seen by the mutation-rate
validation step: the `mu` entry and the optional `kappa` entry.  The source
mutates this bundle in place; here the mutation is explicit state passing. -/
structure NucBundle where
  mu : MuArg
  kappa : Option ℚ

/-- The effect of `MatrixBuilder._sanity_params_mutation_rates` on the
caller's bundle: the `mu` key is overwritten with the full, kappa-adjusted
dictionary, while `kappa` is left in the bundle. -/
def sanity_mutation_rates_update (b : NucBundle) : NucBundle :=
  { mu := MuArg.dct (fun x y => some (sanity_params_mutation_rates b.mu b.kappa x y)),
    kappa := b.kappa }

/-- The rate mapping a model built from bundle `b` actually uses. -/
def bundle_mu (b : NucBundle) : Nucl → Nucl → ℚ :=
  sanity_params_mutation_rates b.mu b.kappa

/-- `MatrixBuilder._sanity_params_state_freqs`: an absent vector defaults to
the uniform vector over the alphabet; a vector of the wrong length raises.
No other check is performed. -/
def sanity_params_state_freqs (size : ℕ) (freqs : Option (List ℚ)) :
    Except String (List ℚ) :=
  let f := freqs.getD (List.replicate size ((1 : ℚ) / size))
  if f.length ≠ size then
    Except.error "state_freqs key in your params dict does not contain the correct number of values for your specified model."
  else
    Except.ok f

/-- Lowercasing of a single character, as Python's `str.lower` acts on the
ASCII letters appearing in scaling-mode strings. -/
def lowerChar : Char → Char
  | 'A' => 'a' | 'B' => 'b' | 'C' => 'c' | 'D' => 'd' | 'E' => 'e' | 'F' => 'f'
  | 'G' => 'g' | 'H' => 'h' | 'I' => 'i' | 'J' => 'j' | 'K' => 'k' | 'L' => 'l'
  | 'M' => 'm' | 'N' => 'n' | 'O' => 'o' | 'P' => 'p' | 'Q' => 'q' | 'R' => 'r'
  | 'S' => 's' | 'T' => 't' | 'U' => 'u' | 'V' => 'v' | 'W' => 'w' | 'X' => 'x'
  | 'Y' => 'y' | 'Z' => 'z' | c => c

/-- Python strings, modelled as lists of characters. -/
abbrev PyStr : Type := List Char

/-- `str.lower`, characterwise. -/
def pyLower (s : PyStr) : PyStr := s.map lowerChar

/-- The character list of the string yang. -/
def yangStr : PyStr := ['y', 'a', 'n', 'g']

/-- The character list of the string neutral. -/
def neutralStr : PyStr := ['n', 'e', 'u', 't', 'r', 'a', 'l']

/-- The `scale_matrix` argument: a Python string, or the values False / None. -/
inductive ScaleArg where
  | str (s : PyStr)
  | falsev
  | nonev
deriving DecidableEq

/-- The lowercasing step of `MatrixBuilder.__init__` (applied to strings only). -/
def normalize_scale_arg : ScaleArg → ScaleArg
  | .str s => .str (pyLower s)
  | a => a

/-- The membership test of the `__init__` assertion: the (lowercased) value
must be the string yang, the string neutral, False, or None. -/
def scale_arg_valid : ScaleArg → Bool
  | .str s => s == yangStr || s == neutralStr
  | _ => true

/-- `MatrixBuilder.__init__` restricted to the scaling argument: lowercase a
string argument, then assert that the result is one of the accepted forms. -/
def matrixbuilder_init_scale (a : ScaleArg) : Except String ScaleArg :=
  let sm := normalize_scale_arg a
  if scale_arg_valid sm then Except.ok sm
  else Except.error "You have specified an incorrect matrix scaling scheme."

/-- Python truthiness of the stored scaling value: a nonempty string is
truthy, False and None are falsy. -/
def scale_truthy : ScaleArg → Bool
  | .str s => !s.isEmpty
  | _ => false

/-- `MatrixBuilder._build_matrix`: every entry of row `s` is filled with the
per-pair rate (including the diagonal), then the diagonal is overwritten with
-1 times the row sum, and an exact negative zero is normalized to zero. -/
def build_matrix (n : ℕ) (f : Fin n → Fin n → ℚ) : Fin n → Fin n → ℚ :=
  fun s t =>
    if s = t then
      if -(∑ u : Fin n, f s u) = -0 then 0 else -(∑ u : Fin n, f s u)
    else f s t

/-- `MatrixBuilder._compute_yang_scaling_factor`: the frequency-weighted sum
of the diagonal entries. -/
def yang_scaling_factor (n : ℕ) (M : Fin n → Fin n → ℚ) (freqs : Fin n → ℚ) : ℚ :=
  ∑ i : Fin n, M i i * freqs i

/-- The scaling step `inst_matrix /= -1. * scaling_factor` of
`MatrixBuilder.__call__`. -/
def scale_divide (n : ℕ) (M : Fin n → Fin n → ℚ) (factor : ℚ) :
    Fin n → Fin n → ℚ :=
  fun s t => M s t / (-1 * factor)

/-- `MatrixBuilder.__call__`: build the matrix, then scale it according to the
stored scaling value.  The neutral scaling factor is family specific and is
passed in by the family wrappers below. -/
def matrixbuilder_call (n : ℕ) (sm : ScaleArg) (f : Fin n → Fin n → ℚ)
    (freqs : Fin n → ℚ) (neutral_factor : ℚ) :
    Except String (Fin n → Fin n → ℚ) :=
  let M := build_matrix n f
  if scale_truthy sm then
    if sm = ScaleArg.str yangStr then
      Except.ok (scale_divide n M (yang_scaling_factor n M freqs))
    else if sm = ScaleArg.str neutralStr then
      Except.ok (scale_divide n M neutral_factor)
    else
      Except.error "You should never be getting here!!"
  else
    Except.ok M

/-- Parameters of the nucleotide family after validation. -/
structure NucParams where
  state_freqs : Fin 4 → ℚ
  mu : Nucl → Nucl → ℚ

/-- `MOLECULES.nucleotides` as an indexing function over the alphabet. -/
def nucAt : Fin 4 → Nucl
  | 0 => .A | 1 => .C | 2 => .G | 3 => .T

/-- `nucleotide_Matrix._calc_instantaneous_prob`: zero for identical
nucleotides, otherwise target frequency times the rate of the sorted pair. -/
def nucleotide_rate (p : NucParams) (s t : Fin 4) : ℚ :=
  if nucAt s = nucAt t then 0
  else
    p.state_freqs t *
      p.mu (sortedPair (nucAt s) (nucAt t)).1 (sortedPair (nucAt s) (nucAt t)).2

/-- `aminoAcid_Matrix._calc_instantaneous_prob`: exchangeability entry times
target amino-acid frequency.  The empirical exchangeability tables live in a
module that is not part of the analysed sources, so the table is abstract. -/
def aminoAcid_rate (emp : Fin 20 → Fin 20 → ℚ) (freqs : Fin 20 → ℚ)
    (s t : Fin 20) : ℚ :=
  emp s t * freqs t

/-- A codon: an ordered triple of nucleotides. -/
abbrev Codon : Type := Nucl × Nucl × Nucl

/-- Modelled from the spec: the codon-to-amino-acid table of the alphabet
context (`genetics.py`, not among the analysed sources).  The spec requires
the standard genetic code, with stop codons written here as the character
star and excluded from the sense-codon alphabet. -/
def codon_dict : Codon → Char
  | (.A, .A, .A) => 'K' | (.A, .A, .C) => 'N' | (.A, .A, .G) => 'K' | (.A, .A, .T) => 'N'
  | (.A, .C, .A) => 'T' | (.A, .C, .C) => 'T' | (.A, .C, .G) => 'T' | (.A, .C, .T) => 'T'
  | (.A, .G, .A) => 'R' | (.A, .G, .C) => 'S' | (.A, .G, .G) => 'R' | (.A, .G, .T) => 'S'
  | (.A, .T, .A) => 'I' | (.A, .T, .C) => 'I' | (.A, .T, .G) => 'M' | (.A, .T, .T) => 'I'
  | (.C, .A, .A) => 'Q' | (.C, .A, .C) => 'H' | (.C, .A, .G) => 'Q' | (.C, .A, .T) => 'H'
  | (.C, .C, .A) => 'P' | (.C, .C, .C) => 'P' | (.C, .C, .G) => 'P' | (.C, .C, .T) => 'P'
  | (.C, .G, .A) => 'R' | (.C, .G, .C) => 'R' | (.C, .G, .G) => 'R' | (.C, .G, .T) => 'R'
  | (.C, .T, .A) => 'L' | (.C, .T, .C) => 'L' | (.C, .T, .G) => 'L' | (.C, .T, .T) => 'L'
  | (.G, .A, .A) => 'E' | (.G, .A, .C) => 'D' | (.G, .A, .G) => 'E' | (.G, .A, .T) => 'D'
  | (.G, .C, .A) => 'A' | (.G, .C, .C) => 'A' | (.G, .C, .G) => 'A' | (.G, .C, .T) => 'A'
  | (.G, .G, .A) => 'G' | (.G, .G, .C) => 'G' | (.G, .G, .G) => 'G' | (.G, .G, .T) => 'G'
  | (.G, .T, .A) => 'V' | (.G, .T, .C) => 'V' | (.G, .T, .G) => 'V' | (.G, .T, .T) => 'V'
  | (.T, .A, .A) => '*' | (.T, .A, .C) => 'Y' | (.T, .A, .G) => '*' | (.T, .A, .T) => 'Y'
  | (.T, .C, .A) => 'S' | (.T, .C, .C) => 'S' | (.T, .C, .G) => 'S' | (.T, .C, .T) => 'S'
  | (.T, .G, .A) => '*' | (.T, .G, .C) => 'C' | (.T, .G, .G) => 'W' | (.T, .G, .T) => 'C'
  | (.T, .T, .A) => 'L' | (.T, .T, .C) => 'F' | (.T, .T, .G) => 'L' | (.T, .T, .T) => 'F'

/-- The nucleotide alphabet in alphabetical order. -/
def nucList : List Nucl := [.A, .C, .G, .T]

/-- All 64 codons in alphabetical order. -/
def allCodons : List Codon :=
  nucList.flatMap (fun a => nucList.flatMap (fun b => nucList.map (fun c => (a, b, c))))

/-- Modelled from the spec: `MOLECULES.codons`, the 61 sense codons in
alphabetical order (the alphabet context excludes the three stop codons). -/
def codons : List Codon :=
  allCodons.filter (fun c => decide (codon_dict c ≠ '*'))

theorem codons_length : codons.length = 61 := by decide

/-- The codon of a given index (0 to 60, alphabetical). -/
def codonAt (i : Fin 61) : Codon := codons.get (Fin.cast codons_length.symm i)

/-- A codon as the list of its three nucleotides. -/
def codonToList : Codon → List Nucl := fun c => [c.1, c.2.1, c.2.2]

/-- `MatrixBuilder._is_syn`: both codons code for the same amino acid. -/
def is_syn (s t : Fin 61) : Prop := codon_dict (codonAt s) = codon_dict (codonAt t)

instance (s t : Fin 61) : Decidable (is_syn s t) :=
  inferInstanceAs (Decidable (codon_dict (codonAt s) = codon_dict (codonAt t)))

/-- `MatrixBuilder._get_nucleotide_diff`: the (source, target) nucleotide
pairs at every position where the two states differ, in position order. -/
def get_nucleotide_diff (x y : List Nucl) : List (Nucl × Nucl) :=
  (x.zip y).filter (fun p => decide (p.1 ≠ p.2))

/-- Number of positions at which two codon indices differ. -/
def codon_diff (s t : Fin 61) : List (Nucl × Nucl) :=
  get_nucleotide_diff (codonToList (codonAt s)) (codonToList (codonAt t))

/-- Count of a given nucleotide in a codon (`codon.count(nuc)`). -/
def countNuc (x : Nucl) (c : Codon) : ℕ := (codonToList c).count x

/-- `StateFrequencies._codon_to_nuc` applied to a full codon frequency
vector, as used by `mechCodon_Matrix.__init__` for MG94: the frequency of a
nucleotide is the codon-frequency-weighted count of that nucleotide in each
codon divided by three. -/
def nuc_freqs_from_codon (freqs : Fin 61 → ℚ) (x : Nucl) : ℚ :=
  ∑ i : Fin 61, freqs i * ((countNuc x (codonAt i) : ℚ) / 3)

/-- Parameters of the mechanistic codon family after validation. -/
structure MechParams where
  state_freqs : Fin 61 → ℚ
  mu : Nucl → Nucl → ℚ
  alpha : ℚ
  beta : ℚ

/-- The model style tag of `mechCodon_Matrix`. -/
inductive ModelType where
  | GY94 | MG94
deriving DecidableEq

/-- `mechCodon_Matrix._calc_prob`: mutation rate times the dN or dS factor,
weighted by the target codon frequency (GY94) or the back-derived target
nucleotide frequency (MG94).  The mutation rates and frequencies are always
read from the instance's own parameters. -/
def mech_calc_prob (self : MechParams) (mt : ModelType) (target : Fin 61)
    (target_nuc : Nucl) (pair : Nucl × Nucl) (factor : ℚ) : ℚ :=
  let prob := self.mu pair.1 pair.2 * factor
  match mt with
  | .GY94 => prob * self.state_freqs target
  | .MG94 => prob * nuc_freqs_from_codon self.state_freqs target_nuc

/-- `mechCodon_Matrix._calc_instantaneous_prob`: zero unless the codons
differ at exactly one position; otherwise dispatch on synonymity, taking
alpha and beta from the passed parameter bundle. -/
def mech_rate (self : MechParams) (mt : ModelType) (params : MechParams)
    (s t : Fin 61) : ℚ :=
  match codon_diff s t with
  | [(sn, tn)] =>
      if is_syn s t then
        mech_calc_prob self mt t tn (sortedPair sn tn) params.alpha
      else
        mech_calc_prob self mt t tn (sortedPair sn tn) params.beta
  | _ => 0

/-- `mechCodon_Matrix._create_neutral_params`: the instance's own frequencies
and mutation rates with alpha and beta reset to 1. -/
def mech_create_neutral_params (p : MechParams) : MechParams :=
  { state_freqs := p.state_freqs, mu := p.mu, beta := 1, alpha := 1 }

/-- `mechCodon_Matrix` version of `_compute_neutral_scaling_factor`. -/
def mech_neutral_factor (p : MechParams) (mt : ModelType) : ℚ :=
  yang_scaling_factor 61
    (build_matrix 61 (mech_rate p mt (mech_create_neutral_params p)))
    (mech_create_neutral_params p).state_freqs

/-- `__call__` on a mechanistic codon model. -/
def mech_call (p : MechParams) (mt : ModelType) (sm : ScaleArg) :
    Except String (Fin 61 → Fin 61 → ℚ) :=
  matrixbuilder_call 61 sm (mech_rate p mt p) p.state_freqs (mech_neutral_factor p mt)

/-- Parameters of the mutation-selection family after validation, over an
alphabet of `n` states (61 codons or 4 nucleotides). -/
structure MutSelParams (n : ℕ) where
  state_freqs : Fin n → ℚ
  mu : Nucl → Nucl → ℚ

/-- `mutSel_Matrix._calc_instantaneous_prob`: zero unless the states differ
at exactly one nucleotide position; then the three-way case split on the
source and target frequencies.  The logarithm (`np.log`) is passed in as an
abstract function on rationals. -/
def mutSel_rate (n : ℕ) (log : ℚ → ℚ) (code : Fin n → List Nucl)
    (params : MutSelParams n) (s t : Fin n) : ℚ :=
  match get_nucleotide_diff (code s) (code t) with
  | [(sn, tn)] =>
      let pi_i := params.state_freqs s
      let pi_j := params.state_freqs t
      let mu_ij := params.mu sn tn
      let mu_ji := params.mu tn sn
      if pi_i ≤ ZERO ∨ pi_j ≤ ZERO then 0
      else if |pi_i - pi_j| ≤ ZERO then mu_ij
      else
        let pi_mu := (pi_j * mu_ji) / (pi_i * mu_ij)
        log pi_mu / (1 - 1 / pi_mu) * mu_ij
  | _ => 0

/-- `mutSel_Matrix._create_neutral_params`: uniform frequencies over the
alphabet, the instance's own mutation rates. -/
def mutSel_create_neutral_params (n : ℕ) (p : MutSelParams n) : MutSelParams n :=
  { state_freqs := fun _ => (1 : ℚ) / n, mu := p.mu }

/-- `mutSel_Matrix` version of `_compute_neutral_scaling_factor`. -/
def mutSel_neutral_factor (n : ℕ) (log : ℚ → ℚ) (code : Fin n → List Nucl)
    (p : MutSelParams n) : ℚ :=
  yang_scaling_factor n
    (build_matrix n (mutSel_rate n log code (mutSel_create_neutral_params n p)))
    (mutSel_create_neutral_params n p).state_freqs

/-- `__call__` on a mutation-selection model. -/
def mutSel_call (n : ℕ) (log : ℚ → ℚ) (code : Fin n → List Nucl)
    (p : MutSelParams n) (sm : ScaleArg) : Except String (Fin n → Fin n → ℚ) :=
  matrixbuilder_call n sm (mutSel_rate n log code p) p.state_freqs
    (mutSel_neutral_factor n log code p)

/-- Parameters of the empirical codon family after validation. -/
structure ECMParams where
  state_freqs : Fin 61 → ℚ
  alpha : ℚ
  beta : ℚ
  k_ti : ℚ
  k_tv : ℚ

/-- `ECM_Matrix._set_kappa_param`: k_ti to the number of transition positions
among the differences times k_tv to the number of transversion positions. -/
def set_kappa_param (self : ECMParams) (diff : List (Nucl × Nucl)) : ℚ :=
  self.k_ti ^ (diff.countP (fun p => is_TI p.1 p.2)) *
    self.k_tv ^ (diff.countP (fun p => !is_TI p.1 p.2))

/-- `ECM_Matrix._calc_instantaneous_prob`: zero for an empty difference set
or, in restricted mode, for a difference count other than one; otherwise the
empirical exchangeability entry times the target frequency, the synonymity
factor and the kappa parameter.  The empirical tables are abstract here. -/
def ecm_rate (emp : Fin 61 → Fin 61 → ℚ) (restricted : Bool)
    (self : ECMParams) (params : ECMParams) (s t : Fin 61) : ℚ :=
  let diff := codon_diff s t
  if diff.length = 0 ∨ (restricted ∧ diff.length ≠ 1) then 0
  else
    let kappa_param := set_kappa_param self diff
    if is_syn s t then
      emp s t * params.state_freqs t * params.alpha * kappa_param
    else
      emp s t * params.state_freqs t * params.beta * kappa_param

theorem get_nucleotide_diff_self (l : List Nucl) : get_nucleotide_diff l l = [] := by
  induction l with
  | nil => rfl
  | cons a l ih => simpa [get_nucleotide_diff, List.filter_cons] using ih

theorem build_matrix_diag (n : ℕ) (f : Fin n → Fin n → ℚ) (s : Fin n) :
    build_matrix n f s s = -∑ u : Fin n, f s u := by
  unfold build_matrix
  rw [if_pos rfl]
  split
  · next h =>
      rw [neg_zero] at h
      rw [neg_eq_zero.mp h, neg_zero]
  · rfl

theorem build_matrix_off_diag (n : ℕ) (f : Fin n → Fin n → ℚ) (s t : Fin n)
    (h : s ≠ t) : build_matrix n f s t = f s t := by
  unfold build_matrix
  rw [if_neg h]

/-- C1: for every model family and every validated parameter bundle, the
built (unscaled) matrix has, in each row, a diagonal entry equal to the
negated sum of the off-diagonal entries of that row, so each row sums to
zero exactly (hence within the 1e-8 tolerance), and a diagonal value of
negative zero is normalized to plain zero.  The scaffold guarantees this for
every per-pair rate function that vanishes on the diagonal, and each
family's rate function does vanish there (the amino-acid family under the
zero-diagonal property of its empirical exchangeability table). -/
theorem claim_row_sum_invariant :
    (∀ (n : ℕ) (f : Fin n → Fin n → ℚ), (∀ s, f s s = 0) → ∀ s : Fin n,
      build_matrix n f s s = -∑ t ∈ Finset.univ.erase s, build_matrix n f s t ∧
      (∑ t : Fin n, build_matrix n f s t = 0) ∧
      |∑ t : Fin n, build_matrix n f s t| < ZERO ∧
      ((∑ u : Fin n, f s u) = 0 → build_matrix n f s s = 0)) ∧
    (∀ p s, nucleotide_rate p s s = 0) ∧
    (∀ emp freqs, (∀ i : Fin 20, emp i i = 0) → ∀ s, aminoAcid_rate emp freqs s s = 0) ∧
    (∀ p mt q s, mech_rate p mt q s s = 0) ∧
    (∀ (n : ℕ) (log : ℚ → ℚ) code q (s : Fin n), mutSel_rate n log code q s s = 0) ∧
    (∀ emp r self q s, ecm_rate emp r self q s s = 0) := by
  refine ⟨?_, ?_, ?_, ?_, ?_, ?_⟩
  · intro n f hf s
    have hoff : ∀ t ∈ Finset.univ.erase s, build_matrix n f s t = f s t := by
      intro t ht
      exact build_matrix_off_diag n f s t (fun hst => (Finset.mem_erase.mp ht).1 hst.symm)
    have herase : ∑ t ∈ Finset.univ.erase s, f s t = ∑ u : Fin n, f s u := by
      rw [← Finset.sum_erase_add Finset.univ (f s) (Finset.mem_univ s), hf s, add_zero]
    have hsum0 : ∑ t : Fin n, build_matrix n f s t = 0 := by
      rw [← Finset.sum_erase_add Finset.univ _ (Finset.mem_univ s),
        Finset.sum_congr rfl hoff, herase, build_matrix_diag, add_neg_cancel]
    refine ⟨?_, hsum0, ?_, ?_⟩
    · rw [build_matrix_diag, Finset.sum_congr rfl hoff, herase]
    · rw [hsum0, abs_zero]
      norm_num [ZERO]
    · intro h0
      rw [build_matrix_diag, h0, neg_zero]
  · intro p s
    unfold nucleotide_rate
    rw [if_pos rfl]
  · intro emp freqs h s
    unfold aminoAcid_rate
    rw [h s, zero_mul]
  · intro p mt q s
    have h : codon_diff s s = [] := get_nucleotide_diff_self _
    unfold mech_rate
    rw [h]
  · intro n log code q s
    have h : get_nucleotide_diff (code s) (code s) = [] := get_nucleotide_diff_self _
    unfold mutSel_rate
    rw [h]
  · intro emp r self q s
    have h : codon_diff s s = [] := get_nucleotide_diff_self _
    simp [ecm_rate, h]

/-- A concrete off-diagonal-constant rate function used by witnesses. -/
def f2 : Fin 2 → Fin 2 → ℚ := fun s t => if s = t then 0 else 3

theorem claim_row_sum_invariant_witness :
    (∀ s : Fin 2, f2 s s = 0) ∧
    (build_matrix 2 f2 0 0 = -∑ t ∈ Finset.univ.erase (0 : Fin 2), build_matrix 2 f2 0 t ∧
      (∑ t : Fin 2, build_matrix 2 f2 0 t = 0) ∧
      |∑ t : Fin 2, build_matrix 2 f2 0 t| < ZERO ∧
      ((∑ u : Fin 2, f2 0 u) = 0 → build_matrix 2 f2 0 0 = 0)) ∧
    (∀ i : Fin 20, (fun _ _ => (0 : ℚ)) i i = 0) ∧
    aminoAcid_rate (fun _ _ => 0) (fun _ => 1 / 20) 0 0 = 0 :=
  ⟨fun s => by simp [f2],
   claim_row_sum_invariant.1 2 f2 (fun s => by simp [f2]) 0,
   fun i => rfl,
   claim_row_sum_invariant.2.2.1 (fun _ _ => 0) (fun _ => 1 / 20) (fun i => rfl) 0⟩

/-- C2: with yang scaling, the returned matrix is the built matrix divided
by the negated factor `∑ i, M[i][i] * freq[i]`, and when that factor is
nonzero the frequency-weighted diagonal trace of the returned matrix is
exactly -1. -/
theorem claim_yang_scaling :
    ∀ (n : ℕ) (f : Fin n → Fin n → ℚ) (freqs : Fin n → ℚ) (nf : ℚ),
      matrixbuilder_call n (ScaleArg.str yangStr) f freqs nf =
        Except.ok (scale_divide n (build_matrix n f)
          (yang_scaling_factor n (build_matrix n f) freqs)) ∧
      (∀ s t, scale_divide n (build_matrix n f)
          (yang_scaling_factor n (build_matrix n f) freqs) s t =
        build_matrix n f s t / -yang_scaling_factor n (build_matrix n f) freqs) ∧
      (yang_scaling_factor n (build_matrix n f) freqs ≠ 0 →
        ∑ i : Fin n, freqs i *
          scale_divide n (build_matrix n f)
            (yang_scaling_factor n (build_matrix n f) freqs) i i = -1) := by
  intro n f freqs nf
  refine ⟨rfl, ?_, ?_⟩
  · intro s t
    unfold scale_divide
    rw [neg_one_mul]
  · intro hfac
    unfold scale_divide
    have h1 : ∑ i : Fin n, freqs i *
        (build_matrix n f i i / (-1 * yang_scaling_factor n (build_matrix n f) freqs)) =
        (∑ i : Fin n, build_matrix n f i i * freqs i) /
          (-1 * yang_scaling_factor n (build_matrix n f) freqs) := by
      rw [Finset.sum_div]
      exact Finset.sum_congr rfl (fun i _ => by ring)
    rw [h1]
    show yang_scaling_factor n (build_matrix n f) freqs /
      (-1 * yang_scaling_factor n (build_matrix n f) freqs) = -1
    rw [neg_one_mul, div_neg, div_self hfac]

theorem claim_yang_scaling_witness :
    yang_scaling_factor 2 (build_matrix 2 f2) (fun _ => 1 / 2) ≠ 0 ∧
    ∑ i : Fin 2, (fun _ => (1 : ℚ) / 2) i *
      scale_divide 2 (build_matrix 2 f2)
        (yang_scaling_factor 2 (build_matrix 2 f2) (fun _ => 1 / 2)) i i = -1 := by
  have hne : yang_scaling_factor 2 (build_matrix 2 f2) (fun _ => (1 : ℚ) / 2) ≠ 0 := by
    norm_num [yang_scaling_factor, Fin.sum_univ_two, build_matrix, f2]
  exact ⟨hne, (claim_yang_scaling 2 f2 (fun _ => 1 / 2) 0).2.2 hne⟩

/-- C3: for the mechanistic codon family, a codon pair differing at more
than one nucleotide position has rate exactly 0 whatever the parameters;
a pair differing at exactly one position has rate `mu[sorted pair] *
(alpha if synonymous else beta) * weight`, with the weight the target codon
frequency for GY94 and the back-derived target nucleotide frequency for
MG94. -/
theorem claim_mech_codon_rate :
    ∀ (p : MechParams) (mt : ModelType) (s t : Fin 61),
      (1 < (codon_diff s t).length → mech_rate p mt p s t = 0) ∧
      (∀ sn tn, codon_diff s t = [(sn, tn)] →
        mech_rate p mt p s t =
          p.mu (sortedPair sn tn).1 (sortedPair sn tn).2 *
            (if is_syn s t then p.alpha else p.beta) *
            (match mt with
             | .GY94 => p.state_freqs t
             | .MG94 => nuc_freqs_from_codon p.state_freqs tn)) := by
  intro p mt s t
  constructor
  · intro h
    unfold mech_rate
    rcases hd : codon_diff s t with _ | ⟨⟨a1, a2⟩, _ | ⟨⟨b1, b2⟩, l⟩⟩
    · rfl
    · rw [hd] at h
      simp at h
    · rfl
  · intro sn tn hd
    unfold mech_rate
    rw [hd]
    cases mt <;> by_cases hsyn : is_syn s t <;>
      simp [mech_calc_prob, hsyn, mul_assoc]

/-- Concrete mechanistic codon parameters used by witnesses. -/
def mechP : MechParams :=
  { state_freqs := fun _ => 1 / 61, mu := fun _ _ => 1, alpha := 1, beta := 2 }

theorem claim_mech_codon_rate_witness :
    1 < (codon_diff 0 5).length ∧
    mech_rate mechP .GY94 mechP 0 5 = 0 ∧
    codon_diff 0 1 = [(Nucl.A, Nucl.C)] ∧
    mech_rate mechP .GY94 mechP 0 1 =
      mechP.mu (sortedPair .A .C).1 (sortedPair .A .C).2 *
        (if is_syn 0 1 then mechP.alpha else mechP.beta) * mechP.state_freqs 1 :=
  ⟨by decide,
   (claim_mech_codon_rate mechP .GY94 0 5).1 (by decide),
   by decide,
   (claim_mech_codon_rate mechP .GY94 0 1).2 .A .C (by decide)⟩

/-- C4: for the mutation-selection family, pairs not differing at exactly
one nucleotide position have rate 0; for a single-difference pair the rate
follows the three-way case split: rate 0 when either frequency is at most
the 1e-8 threshold, rate `mu_ij` when the frequencies are within the
threshold of each other, and otherwise `mu_ij * log r / (1 - 1/r)` with
`r = (pi_j * mu_ji) / (pi_i * mu_ij)`. -/
theorem claim_mutsel_rate :
    ∀ (n : ℕ) (log : ℚ → ℚ) (code : Fin n → List Nucl) (p : MutSelParams n)
      (s t : Fin n),
      ((get_nucleotide_diff (code s) (code t)).length ≠ 1 →
        mutSel_rate n log code p s t = 0) ∧
      (∀ sn tn, get_nucleotide_diff (code s) (code t) = [(sn, tn)] →
        (p.state_freqs s ≤ ZERO ∨ p.state_freqs t ≤ ZERO →
          mutSel_rate n log code p s t = 0) ∧
        (¬(p.state_freqs s ≤ ZERO ∨ p.state_freqs t ≤ ZERO) →
          |p.state_freqs s - p.state_freqs t| ≤ ZERO →
          mutSel_rate n log code p s t = p.mu sn tn) ∧
        (¬(p.state_freqs s ≤ ZERO ∨ p.state_freqs t ≤ ZERO) →
          ¬(|p.state_freqs s - p.state_freqs t| ≤ ZERO) →
          mutSel_rate n log code p s t =
            p.mu sn tn *
              log ((p.state_freqs t * p.mu tn sn) / (p.state_freqs s * p.mu sn tn)) /
              (1 - 1 / ((p.state_freqs t * p.mu tn sn) / (p.state_freqs s * p.mu sn tn))))) := by
  intro n log code p s t
  constructor
  · intro h
    unfold mutSel_rate
    rcases hd : get_nucleotide_diff (code s) (code t) with _ | ⟨⟨a1, a2⟩, _ | ⟨⟨b1, b2⟩, l⟩⟩
    · rfl
    · rw [hd] at h
      simp at h
    · rfl
  · intro sn tn hd
    unfold mutSel_rate
    rw [hd]
    refine ⟨?_, ?_, ?_⟩
    · intro h
      simp only [if_pos h]
    · intro h1 h2
      simp only [if_neg h1, if_pos h2]
    · intro h1 h2
      simp only [if_neg h1, if_neg h2]
      ring

/-- The nucleotide alphabet as the state coding of a mutation-selection
model in nucleotide space. -/
def nucCode : Fin 4 → List Nucl := fun i => [nucAt i]

/-- Mutation-selection parameters with equal frequencies. -/
def msA : MutSelParams 4 := { state_freqs := fun _ => 1 / 4, mu := fun _ _ => 1 }

/-- Mutation-selection parameters with a zero source frequency. -/
def msB : MutSelParams 4 :=
  { state_freqs := fun i => if i = 0 then 0 else 1 / 3, mu := fun _ _ => 1 }

/-- Mutation-selection parameters with distinct source and target
frequencies. -/
def msC : MutSelParams 4 :=
  { state_freqs := fun i => if i = 0 then 1 / 4 else if i = 1 then 1 / 2 else 1 / 8,
    mu := fun _ _ => 1 }

theorem claim_mutsel_rate_witness :
    get_nucleotide_diff (nucCode 0) (nucCode 1) = [(Nucl.A, Nucl.C)] ∧
    (msB.state_freqs 0 ≤ ZERO ∨ msB.state_freqs 1 ≤ ZERO) ∧
    mutSel_rate 4 (fun _ => 7) nucCode msB 0 1 = 0 ∧
    ¬(msA.state_freqs 0 ≤ ZERO ∨ msA.state_freqs 1 ≤ ZERO) ∧
    |msA.state_freqs 0 - msA.state_freqs 1| ≤ ZERO ∧
    mutSel_rate 4 (fun _ => 7) nucCode msA 0 1 = msA.mu .A .C ∧
    ¬(msC.state_freqs 0 ≤ ZERO ∨ msC.state_freqs 1 ≤ ZERO) ∧
    ¬(|msC.state_freqs 0 - msC.state_freqs 1| ≤ ZERO) ∧
    mutSel_rate 4 (fun _ => 7) nucCode msC 0 1 =
      msC.mu .A .C *
        (fun _ : ℚ => (7 : ℚ))
          ((msC.state_freqs 1 * msC.mu .C .A) / (msC.state_freqs 0 * msC.mu .A .C)) /
        (1 - 1 / ((msC.state_freqs 1 * msC.mu .C .A) / (msC.state_freqs 0 * msC.mu .A .C))) := by
  have hB : msB.state_freqs 0 ≤ ZERO ∨ msB.state_freqs 1 ≤ ZERO := by
    left
    norm_num [msB, ZERO]
  have hA1 : ¬(msA.state_freqs 0 ≤ ZERO ∨ msA.state_freqs 1 ≤ ZERO) := by
    norm_num [msA, ZERO]
  have hA2 : |msA.state_freqs 0 - msA.state_freqs 1| ≤ ZERO := by
    norm_num [msA, ZERO]
  have hC1 : ¬(msC.state_freqs 0 ≤ ZERO ∨ msC.state_freqs 1 ≤ ZERO) := by
    norm_num [msC, ZERO]
  have hC2 : ¬(|msC.state_freqs 0 - msC.state_freqs 1| ≤ ZERO) := by
    norm_num [msC, ZERO, abs_le]
  refine ⟨by decide, hB, ?_, hA1, hA2, ?_, hC1, hC2, ?_⟩
  · exact (((claim_mutsel_rate 4 (fun _ => 7) nucCode msB 0 1).2 .A .C (by decide)).1) hB
  · exact (((claim_mutsel_rate 4 (fun _ => 7) nucCode msA 0 1).2 .A .C (by decide)).2.1) hA1 hA2
  · exact (((claim_mutsel_rate 4 (fun _ => 7) nucCode msC 0 1).2 .A .C (by decide)).2.2) hC1 hC2

/-- C5: with neutral scaling, the returned matrix is the original built
matrix divided by the negated Yang factor of a separately built neutral
matrix; the neutralized bundle keeps the frequencies and mutation rates but
sets alpha and beta to 1 for the mechanistic codon family, and replaces the
frequencies with the uniform vector while keeping the mutation rates for the
mutation-selection family. -/
theorem claim_neutral_scaling :
    ∀ (p : MechParams) (mt : ModelType) (n : ℕ) (log : ℚ → ℚ)
      (code : Fin n → List Nucl) (q : MutSelParams n),
      mech_call p mt (ScaleArg.str neutralStr) =
        Except.ok (fun s t =>
          build_matrix 61 (mech_rate p mt p) s t /
            -yang_scaling_factor 61
              (build_matrix 61 (mech_rate p mt
                { state_freqs := p.state_freqs, mu := p.mu, alpha := 1, beta := 1 }))
              p.state_freqs) ∧
      mutSel_call n log code q (ScaleArg.str neutralStr) =
        Except.ok (fun s t =>
          build_matrix n (mutSel_rate n log code q) s t /
            -yang_scaling_factor n
              (build_matrix n (mutSel_rate n log code
                { state_freqs := fun _ => (1 : ℚ) / n, mu := q.mu }))
              (fun _ => (1 : ℚ) / n)) := by
  intro p mt n log code q
  constructor
  · have h : mech_call p mt (ScaleArg.str neutralStr) =
        Except.ok (scale_divide 61 (build_matrix 61 (mech_rate p mt p))
          (mech_neutral_factor p mt)) := rfl
    rw [h]
    apply congrArg
    funext s t
    show build_matrix 61 (mech_rate p mt p) s t / (-1 * mech_neutral_factor p mt) = _
    rw [neg_one_mul]
    rfl
  · have h : mutSel_call n log code q (ScaleArg.str neutralStr) =
        Except.ok (scale_divide n (build_matrix n (mutSel_rate n log code q))
          (mutSel_neutral_factor n log code q)) := rfl
    rw [h]
    apply congrArg
    funext s t
    show build_matrix n (mutSel_rate n log code q) s t /
      (-1 * mutSel_neutral_factor n log code q) = _
    rw [neg_one_mul]
    rfl

/-- C6: for the ECM family, an empty difference set gives rate 0; in
restricted mode a difference count other than one gives rate 0; in every
remaining case the rate is the empirical entry times the target frequency
times the kappa parameter times alpha or beta according to synonymity, so
in unrestricted mode every pair with one to three differences gets the
formula. -/
theorem claim_ecm_rate :
    ∀ (emp : Fin 61 → Fin 61 → ℚ) (restricted : Bool) (p : ECMParams) (s t : Fin 61),
      ((codon_diff s t).length = 0 → ecm_rate emp restricted p p s t = 0) ∧
      (restricted = true → (codon_diff s t).length ≠ 1 →
        ecm_rate emp restricted p p s t = 0) ∧
      (restricted = true → (codon_diff s t).length = 1 →
        ecm_rate emp restricted p p s t =
          emp s t * p.state_freqs t * set_kappa_param p (codon_diff s t) *
            (if is_syn s t then p.alpha else p.beta)) ∧
      (restricted = false → (codon_diff s t).length ≠ 0 →
        ecm_rate emp restricted p p s t =
          emp s t * p.state_freqs t * set_kappa_param p (codon_diff s t) *
            (if is_syn s t then p.alpha else p.beta)) := by
  intro emp restricted p s t
  refine ⟨?_, ?_, ?_, ?_⟩
  · intro h
    unfold ecm_rate
    rw [if_pos (Or.inl h)]
  · intro hr h
    unfold ecm_rate
    rw [if_pos (Or.inr ⟨by simp [hr], h⟩)]
  · intro hr h1
    unfold ecm_rate
    rw [if_neg (by simp [h1])]
    by_cases hsyn : is_syn s t
    · rw [if_pos hsyn, if_pos hsyn]
      ring
    · rw [if_neg hsyn, if_neg hsyn]
      ring
  · intro hr h0
    unfold ecm_rate
    rw [if_neg (by simp [hr, h0])]
    by_cases hsyn : is_syn s t
    · rw [if_pos hsyn, if_pos hsyn]
      ring
    · rw [if_neg hsyn, if_neg hsyn]
      ring

/-- Concrete ECM parameters used by witnesses. -/
def ecmP : ECMParams :=
  { state_freqs := fun _ => 1 / 61, alpha := 1, beta := 2, k_ti := 3, k_tv := 5 }

theorem claim_ecm_rate_witness :
    (codon_diff 0 0).length = 0 ∧
    ecm_rate (fun _ _ => 1) true ecmP ecmP 0 0 = 0 ∧
    (codon_diff 0 5).length ≠ 1 ∧
    ecm_rate (fun _ _ => 1) true ecmP ecmP 0 5 = 0 ∧
    (codon_diff 0 1).length = 1 ∧
    ecm_rate (fun _ _ => 1) true ecmP ecmP 0 1 =
      (fun _ _ : Fin 61 => (1 : ℚ)) 0 1 * ecmP.state_freqs 1 *
        set_kappa_param ecmP (codon_diff 0 1) *
        (if is_syn 0 1 then ecmP.alpha else ecmP.beta) ∧
    (codon_diff 0 5).length ≠ 0 ∧
    ecm_rate (fun _ _ => 1) false ecmP ecmP 0 5 =
      (fun _ _ : Fin 61 => (1 : ℚ)) 0 5 * ecmP.state_freqs 5 *
        set_kappa_param ecmP (codon_diff 0 5) *
        (if is_syn 0 5 then ecmP.alpha else ecmP.beta) :=
  ⟨by decide,
   (claim_ecm_rate (fun _ _ => 1) true ecmP 0 0).1 (by decide),
   by decide,
   (claim_ecm_rate (fun _ _ => 1) true ecmP 0 5).2.1 rfl (by decide),
   by decide,
   (claim_ecm_rate (fun _ _ => 1) true ecmP 0 1).2.2.1 rfl (by decide),
   by decide,
   (claim_ecm_rate (fun _ _ => 1) false ecmP 0 5).2.2.2 rfl (by decide)⟩

/-- C7: mutation-rate validation yields a total mapping on ordered
nucleotide pairs: a single float applies to every pair, a partial dictionary
is completed from the reverse direction with default 1.0, an absent entry
gives all 1.0, and a kappa entry multiplies exactly the transition entries
(A-G, G-A, C-T, T-C) of the result, leaving transversions unchanged, so
with kappa 2.0 over uniform rates transitions are exactly twice the
transversions. -/
theorem claim_mu_validation :
    ∀ (x k : ℚ) (m : Nucl → Nucl → Option ℚ) (a b : Nucl), a ≠ b →
      sanity_params_mutation_rates (MuArg.flt x) none a b = x ∧
      sanity_params_mutation_rates MuArg.absent none a b = 1 ∧
      (m a b = none → m b a = none →
        sanity_params_mutation_rates (MuArg.dct m) none a b = 1) ∧
      (∀ v, m a b = none → m b a = some v →
        sanity_params_mutation_rates (MuArg.dct m) none a b = v) ∧
      (∀ v, m a b = some v →
        sanity_params_mutation_rates (MuArg.dct m) none a b = v) ∧
      (∀ arg : MuArg, sanity_params_mutation_rates arg (some k) a b =
        (if is_TI a b then sanity_params_mutation_rates arg none a b * k
         else sanity_params_mutation_rates arg none a b)) ∧
      (is_TI a b = true → sanity_params_mutation_rates MuArg.absent (some 2) a b = 2) ∧
      (is_TI a b = false → sanity_params_mutation_rates MuArg.absent (some 2) a b = 1) := by
  intro x k m a b hab
  have hkappa : ∀ arg : MuArg, ∀ k' : ℚ,
      sanity_params_mutation_rates arg (some k') a b =
        (if is_TI a b then sanity_params_mutation_rates arg none a b * k'
         else sanity_params_mutation_rates arg none a b) := by
    intro arg k'
    show applyKappa k' (sanityMuBase arg) a b = _
    cases a <;> cases b <;>
      first
        | exact absurd rfl hab
        | simp [applyKappa, is_TI, isPyrim, isPurine, sanity_params_mutation_rates]
  refine ⟨rfl, rfl, ?_, ?_, ?_, fun arg => hkappa arg k, ?_, ?_⟩
  · intro h1 h2
    show fillMuDict m a b = 1
    unfold fillMuDict
    rw [h1, h2]
    rfl
  · intro v h1 h2
    show fillMuDict m a b = v
    unfold fillMuDict
    rw [h1, h2]
    rfl
  · intro v h1
    show fillMuDict m a b = v
    unfold fillMuDict
    rw [h1]
    rfl
  · intro hti
    rw [hkappa MuArg.absent 2, if_pos hti]
    show (1 : ℚ) * 2 = 2
    norm_num
  · intro hti
    rw [hkappa MuArg.absent 2, if_neg (by simp [hti])]
    rfl

/-- A partial mutation dictionary with a single entry, used by witnesses. -/
def muDictAG : Nucl → Nucl → Option ℚ :=
  fun x y => if x = Nucl.A ∧ y = Nucl.G then some 9 else none

theorem claim_mu_validation_witness :
    (Nucl.A ≠ Nucl.G) ∧
    sanity_params_mutation_rates (MuArg.flt 5) none .A .G = 5 ∧
    (muDictAG .G .A = none ∧ muDictAG .A .G = some 9) ∧
    sanity_params_mutation_rates (MuArg.dct muDictAG) none .G .A = 9 ∧
    (muDictAG .C .T = none ∧ muDictAG .T .C = none) ∧
    sanity_params_mutation_rates (MuArg.dct muDictAG) none .C .T = 1 ∧
    (is_TI .A .G = true) ∧
    sanity_params_mutation_rates MuArg.absent (some 2) .A .G = 2 ∧
    (is_TI .A .C = false) ∧
    sanity_params_mutation_rates MuArg.absent (some 2) .A .C = 1 :=
  ⟨by decide,
   (claim_mu_validation 5 2 muDictAG .A .G (by decide)).1,
   ⟨by decide, by decide⟩,
   (claim_mu_validation 5 2 muDictAG .G .A (by decide)).2.2.2.1 9 (by decide) (by decide),
   ⟨by decide, by decide⟩,
   (claim_mu_validation 5 2 muDictAG .C .T (by decide)).2.2.1 (by decide) (by decide),
   by decide,
   (claim_mu_validation 5 2 muDictAG .A .G (by decide)).2.2.2.2.2.2.1 (by decide),
   by decide,
   (claim_mu_validation 5 2 muDictAG .A .C (by decide)).2.2.2.2.2.2.2 (by decide)⟩

/-- C8 counterexample: a frequency vector of the correct length whose sum is
2 (not 1 within the 1e-8 tolerance) is accepted without error by
state-frequency validation, contradicting the claim that such a vector
raises a ParameterError at construction. -/
theorem claim_state_freqs_cex :
    sanity_params_state_freqs 4 (some [(1 : ℚ) / 2, 1 / 2, 1 / 2, 1 / 2]) =
      Except.ok [(1 : ℚ) / 2, 1 / 2, 1 / 2, 1 / 2] ∧
    ([(1 : ℚ) / 2, 1 / 2, 1 / 2, 1 / 2].sum = 2) ∧
    ¬(|(2 : ℚ) - 1| ≤ ZERO) := by
  refine ⟨rfl, ?_, ?_⟩
  · norm_num
  · norm_num [ZERO]

/-- C8 amended: state-frequency validation raises exactly when the supplied
vector has the wrong length for the model's alphabet size, and defaults an
absent vector to the uniform vector; the sum of the vector is not checked. -/
theorem claim_state_freqs_amended :
    ∀ (size : ℕ) (l : List ℚ),
      sanity_params_state_freqs size none =
        Except.ok (List.replicate size ((1 : ℚ) / size)) ∧
      (l.length = size → sanity_params_state_freqs size (some l) = Except.ok l) ∧
      (l.length ≠ size → sanity_params_state_freqs size (some l) =
        Except.error "state_freqs key in your params dict does not contain the correct number of values for your specified model.") := by
  intro size l
  refine ⟨?_, ?_, ?_⟩
  · unfold sanity_params_state_freqs
    rw [if_neg (by simp)]
    rfl
  · intro h
    unfold sanity_params_state_freqs
    rw [if_neg (by simp [h])]
    rfl
  · intro h
    unfold sanity_params_state_freqs
    rw [if_pos (by simpa using h)]

theorem claim_state_freqs_amended_witness :
    ([(1 : ℚ), 2, 3, 4].length = 4) ∧
    sanity_params_state_freqs 4 (some [(1 : ℚ), 2, 3, 4]) =
      Except.ok [(1 : ℚ), 2, 3, 4] ∧
    ([(1 : ℚ), 2, 3].length ≠ 4) ∧
    sanity_params_state_freqs 4 (some [(1 : ℚ), 2, 3]) =
      Except.error "state_freqs key in your params dict does not contain the correct number of values for your specified model." :=
  ⟨rfl,
   (claim_state_freqs_amended 4 [(1 : ℚ), 2, 3, 4]).2.1 rfl,
   by decide,
   (claim_state_freqs_amended 4 [(1 : ℚ), 2, 3]).2.2 (by decide)⟩

/-- C9 counterexample: the string none is rejected at construction with a
configuration error, contradicting the claim that the scaling-mode argument
accepts the three forms yang, neutral and none as (case-insensitive)
strings. -/
theorem claim_scale_mode_cex :
    matrixbuilder_init_scale (ScaleArg.str ['n', 'o', 'n', 'e']) =
      Except.error "You have specified an incorrect matrix scaling scheme." := rfl

/-- C9 amended: the scaling argument accepts exactly the strings yang and
neutral (case-insensitively) plus the non-string values False and None; any
other value, including the string none, raises at construction; and every
accepted value makes the matrix-build call succeed, so no scaling error is
ever raised at build time. -/
theorem claim_scale_mode_amended :
    ∀ (s : PyStr) (a sm : ScaleArg),
      ((matrixbuilder_init_scale (ScaleArg.str s)).isOk = true ↔
        (pyLower s = yangStr ∨ pyLower s = neutralStr)) ∧
      matrixbuilder_init_scale ScaleArg.falsev = Except.ok ScaleArg.falsev ∧
      matrixbuilder_init_scale ScaleArg.nonev = Except.ok ScaleArg.nonev ∧
      (matrixbuilder_init_scale a = Except.ok sm →
        ∀ (n : ℕ) (f : Fin n → Fin n → ℚ) (freqs : Fin n → ℚ) (nf : ℚ),
          (matrixbuilder_call n sm f freqs nf).isOk = true) := by
  intro s a sm
  refine ⟨?_, rfl, rfl, ?_⟩
  · have h1 : (matrixbuilder_init_scale (ScaleArg.str s)).isOk =
        ((pyLower s == yangStr) || (pyLower s == neutralStr)) := by
      unfold matrixbuilder_init_scale normalize_scale_arg scale_arg_valid
      cases hb : ((pyLower s == yangStr) || (pyLower s == neutralStr)) <;>
        simp [hb, Except.isOk, Except.toBool]
    rw [h1]
    simp
  · intro h n f freqs nf
    cases a with
    | str s' =>
        unfold matrixbuilder_init_scale normalize_scale_arg scale_arg_valid at h
        by_cases hv : ((pyLower s' == yangStr) || (pyLower s' == neutralStr)) = true
        · rw [if_pos hv] at h
          have hsm : ScaleArg.str (pyLower s') = sm := by
            injection h
          rcases (by simpa using hv : pyLower s' = yangStr ∨ pyLower s' = neutralStr) with
            hy | hne
          · rw [← hsm, hy]
            rfl
          · rw [← hsm, hne]
            rfl
        · rw [if_neg hv] at h
          exact Except.noConfusion h
    | falsev =>
        have hsm : ScaleArg.falsev = sm := by
          injection h
        rw [← hsm]
        rfl
    | nonev =>
        have hsm : ScaleArg.nonev = sm := by
          injection h
        rw [← hsm]
        rfl

theorem claim_scale_mode_amended_witness :
    matrixbuilder_init_scale (ScaleArg.str ['Y', 'A', 'N', 'G']) =
      Except.ok (ScaleArg.str yangStr) ∧
    (matrixbuilder_call 2 (ScaleArg.str yangStr) f2 (fun _ => 1 / 2) 0).isOk = true :=
  ⟨rfl,
   (claim_scale_mode_amended ['Y', 'A', 'N', 'G'] (ScaleArg.str ['Y', 'A', 'N', 'G'])
      (ScaleArg.str yangStr)).2.2.2 rfl 2 f2 (fun _ => 1 / 2) 0⟩

/-- A caller-supplied bundle holding a full mutation dictionary of ones and
a kappa of 2, used to exhibit the in-place mutation of the bundle. -/
def b0 : NucBundle := ⟨MuArg.dct (fun _ _ => some 1), some 2⟩

/-- C10, evaluated at the failing input: validation of bundle `b0` (all
mutation rates 1, kappa 2) overwrites the caller's existing `mu` entry with
the kappa-multiplied mapping (the A-to-G value becomes 2 in place of the
supplied 1), and a second model constructed from the same, now-mutated
bundle applies kappa again, so its A-to-G mutation rate is 4 and its built
matrix differs from the first model's: the engine does transform existing
entries, and reuse does not reproduce the same matrix. -/
theorem claim_bundle_reuse :
    bundle_mu b0 Nucl.A Nucl.G = 2 ∧
    bundle_mu b0 Nucl.A Nucl.C = 1 ∧
    (match (sanity_mutation_rates_update b0).mu with
     | MuArg.dct m => m Nucl.A Nucl.G
     | _ => none) = some (2 : ℚ) ∧
    bundle_mu (sanity_mutation_rates_update b0) Nucl.A Nucl.G = 4 ∧
    nucleotide_rate ⟨fun _ => 1 / 4, bundle_mu b0⟩ 0 2 = 1 / 2 ∧
    nucleotide_rate ⟨fun _ => 1 / 4, bundle_mu (sanity_mutation_rates_update b0)⟩ 0 2 = 1 := by
  have h1 : bundle_mu b0 Nucl.A Nucl.G = 2 := by
    norm_num [bundle_mu, b0, sanity_params_mutation_rates, sanityMuBase, fillMuDict,
      applyKappa]
  have h2 : bundle_mu (sanity_mutation_rates_update b0) Nucl.A Nucl.G = 4 := by
    norm_num [bundle_mu, sanity_mutation_rates_update, b0, sanity_params_mutation_rates,
      sanityMuBase, fillMuDict, applyKappa]
  refine ⟨h1, ?_, ?_, h2, ?_, ?_⟩
  · norm_num [bundle_mu, b0, sanity_params_mutation_rates, sanityMuBase, fillMuDict,
      applyKappa]
  · show some (sanity_params_mutation_rates b0.mu b0.kappa Nucl.A Nucl.G) = some (2 : ℚ)
    rw [show sanity_params_mutation_rates b0.mu b0.kappa Nucl.A Nucl.G = 2 from h1]
  · show (if nucAt 0 = nucAt 2 then (0 : ℚ)
      else (fun _ : Fin 4 => (1 : ℚ) / 4) 2 *
        bundle_mu b0 (sortedPair (nucAt 0) (nucAt 2)).1 (sortedPair (nucAt 0) (nucAt 2)).2) = 1 / 2
    rw [if_neg (by decide)]
    show (1 : ℚ) / 4 * bundle_mu b0 Nucl.A Nucl.G = 1 / 2
    rw [h1]
    norm_num
  · show (if nucAt 0 = nucAt 2 then (0 : ℚ)
      else (fun _ : Fin 4 => (1 : ℚ) / 4) 2 *
        bundle_mu (sanity_mutation_rates_update b0) (sortedPair (nucAt 0) (nucAt 2)).1
          (sortedPair (nucAt 0) (nucAt 2)).2) = 1
    rw [if_neg (by decide)]
    show (1 : ℚ) / 4 * bundle_mu (sanity_mutation_rates_update b0) Nucl.A Nucl.G = 1
    rw [h2]
    norm_num
